import Mathlib

/-!
Verification of the qmxgraph view-lifecycle state machine and bridge/call
protocol, shallowly embedded from the repository sources:

* `qmxgraph/js.py` : the JavaScript call marshaler (`prepare_js_call`,
  `Variable`, `_JavaScriptEncoder`).
* `qmxgraph/_web_view.py` : the `ViewState` machine
  (`_on_load_finished`, `load_graph`, `blank`, `eval_js`,
  `_check_valid_eval_state`).
* `qmxgraph/widget.py` : `QmxGraph.load_and_wait` / `blank_and_wait`,
  `DelayedSignalsBridge` and the drop handler `_on_drop`.
* `qmxgraph/api.py` : `QmxGraphApi.call_api`.
* `qmxgraph/callback_blocker.py` : `CallbackBlocker`.
* `qmxgraph/mime.py` and `qmxgraph/constants.py` : the drag&drop payload.
-/

namespace Qmx

/-! ### Python values passed to the call marshaler (`qmxgraph/js.py`)

`PyVal` models the Python values that `prepare_js_call` accepts: the
JSON-encodable primitives plus `Variable` (a raw JavaScript reference).
Python `dict` keys that reach `json.dumps` here are strings.
-/

inductive PyVal : Type
  | none
  | bool (b : Bool)
  | int (n : Int)
  | str (s : String)
  | list (xs : List PyVal)
  | dict (kvs : List (String × PyVal))
  | var (name : String)

/-- One hexadecimal digit, lowercase, as produced by the `\uXXXX`
escapes of CPython. -/
def hexDigit (n : Nat) : Char :=
  if n < 10 then Char.ofNat (48 + n) else Char.ofNat (87 + n)

/-- Four hex digits of `n % 65536`. -/
def hex4 (n : Nat) : String :=
  String.mk [hexDigit (n / 4096 % 16), hexDigit (n / 256 % 16),
    hexDigit (n / 16 % 16), hexDigit (n % 16)]

/-- Escaping of a single character as in the function
`py_encode_basestring_ascii` of `json.encoder` (the default `ensure_ascii=True` path of
`json.dumps`): printable ASCII except `"` and `\` passes through, the
two-character escapes are used for the usual control characters, and
everything else becomes `\uXXXX` (with surrogate pairs above U+FFFF). -/
def escapeJsonChar (c : Char) : String :=
  if c = '"' then "\\\""
  else if c = '\\' then "\\\\"
  else if c = '\x08' then "\\b"
  else if c = '\x0c' then "\\f"
  else if c = '\n' then "\\n"
  else if c = '\r' then "\\r"
  else if c = '\t' then "\\t"
  else if c.toNat < 0x20 ∨ 0x7f ≤ c.toNat then
    if c.toNat < 0x10000 then "\\u" ++ hex4 c.toNat
    else
      let v := c.toNat - 0x10000
      "\\u" ++ hex4 (0xd800 + v / 0x400) ++ "\\u" ++ hex4 (0xdc00 + v % 0x400)
  else String.singleton c

/-- JSON encoding of a Python string, per `json.dumps` defaults. -/
def encodeJsonString (s : String) : String :=
  "\x22" ++ String.join (s.data.map escapeJsonChar) ++ "\x22"

mutual

/-- Embedding of `json.JSONEncoder.encode` (as reached through
`json.dumps(o, cls=_JavaScriptEncoder)` for a NON-`Variable` top-level
object, and for every nested object): the standard JSON serialization
with separators `", "` and `": "`.  A `Variable` reaching this encoder
is handed to `JSONEncoder.default`, which raises `TypeError` - the
override `_JavaScriptEncoder.encode` only intercepts the top level. -/
def jsonEncode : PyVal → Except String String
  | .none => .ok "null"
  | .bool true => .ok "true"
  | .bool false => .ok "false"
  | .int n => .ok (toString n)
  | .str s => .ok (encodeJsonString s)
  | .list xs => do
      let parts ← jsonEncodeList xs
      .ok ("[" ++ String.intercalate ", " parts ++ "]")
  | .dict kvs => do
      let parts ← jsonEncodeKVs kvs
      .ok ("\x7b" ++ String.intercalate ", " parts ++ "\x7d")
  | .var _ => .error "Object of type Variable is not JSON serializable"

/-- Encodes the elements of a JSON array, left to right, propagating the
first `TypeError`. -/
def jsonEncodeList : List PyVal → Except String (List String)
  | [] => .ok []
  | x :: xs => do
      let ex ← jsonEncode x
      let rest ← jsonEncodeList xs
      .ok (ex :: rest)

/-- Encodes the entries of a JSON object, in insertion order
(`sort_keys=False`), propagating the first `TypeError`. -/
def jsonEncodeKVs : List (String × PyVal) → Except String (List String)
  | [] => .ok []
  | (k, v) :: rest => do
      let ev ← jsonEncode v
      let erest ← jsonEncodeKVs rest
      .ok ((encodeJsonString k ++ ": " ++ ev) :: erest)

end

/-- Embedding of `_js_dump = functools.partial(json.dumps, cls=_JavaScriptEncoder)`:
`_JavaScriptEncoder.encode` returns `o.name` verbatim when
`type(o) is Variable`, and otherwise defers to `JSONEncoder.encode`. -/
def js_dump (o : PyVal) : Except String String :=
  match o with
  | .var name => .ok name
  | o => jsonEncode o

/-- The generator `(_js_dump(v) for v in args)` as consumed by
`", ".join(...)`: dumps each argument left to right, propagating the
first exception. -/
def js_dump_args : List PyVal → Except String (List String)
  | [] => .ok []
  | x :: xs => do
      let ex ← js_dump x
      let rest ← js_dump_args xs
      .ok (ex :: rest)

/-- Embedding of `qmxgraph.js.prepare_js_call(fn, *args)`:
`"{fn}({args})".format(fn=fn, args=", ".join(_js_dump(v) for v in args))`,
with a Python exception modelled as `Except.error`. -/
def prepare_js_call (fn : String) (args : List PyVal) : Except String String := do
  let parts ← js_dump_args args
  .ok (fn ++ "(" ++ String.intercalate ", " parts ++ ")")

/-- Whether a computation completed without raising (`.ok`). -/
def exceptOk : Except ε β → Bool
  | .ok _ => true
  | .error _ => false

/-! ### The view lifecycle state machine (`qmxgraph/_web_view.py`) -/

/-- Embedding of `qmxgraph._web_view.ViewState`. -/
inductive ViewState : Type
  | Blank
  | GraphLoaded
  | LoadingGraph
  | LoadingBlank
  | LoadingError
  | Closing
deriving DecidableEq, Repr

/-- Embedding of `QWebViewWithDragDrop._on_load_finished(ok)`: the reaction of the
state machine to a `loadFinished` notification from the engine. -/
def on_load_finished (s : ViewState) (ok : Bool) : ViewState :=
  if !ok then .LoadingError
  else if s = .LoadingBlank then .Blank
  else if s = .LoadingGraph then .GraphLoaded
  else s

/-- Embedding of `QWebViewWithDragDrop.load_graph`: returns the new state together
with whether a page load was started (`setHtml` was called). -/
def load_graph (s : ViewState) : ViewState × Bool :=
  if s = .GraphLoaded ∨ s = .LoadingGraph then (s, false)
  else (.LoadingGraph, true)

/-- Embedding of `QWebViewWithDragDrop.blank`: unconditionally moves to
`LoadingBlank` and calls `setHtml` (second component `true`). -/
def blank (_s : ViewState) : ViewState × Bool :=
  (.LoadingBlank, true)

/-- Embedding of `QWebViewWithDragDrop.closeEvent`. -/
def close_event (_s : ViewState) : ViewState :=
  .Closing

/-- Outcome of `eval_js` with respect to the engine: either a state
fault (`RuntimeError`) is raised before the script is handed to the
engine, or the script reaches `page().runJavaScript`. -/
inductive EvalOutcome : Type
  | stateFault
  | engineCall
deriving DecidableEq, Repr

/-- The pre-call state check of `QWebViewWithDragDrop.eval_js` (also
`_check_valid_eval_state` in the later layout): when `check_api` is
enabled and the view state is not `GraphLoaded`, a `RuntimeError` is
raised and the `page().runJavaScript` branch is never reached. -/
def eval_js (s : ViewState) (check_api : Bool) : EvalOutcome :=
  if check_api = true ∧ s ≠ .GraphLoaded then .stateFault else .engineCall

/-- Faults that `QmxGraphApi.call_api` may surface (debug mode off):
the `TypeError` from unserializable arguments, or the state fault from
`eval_js`. -/
inductive ApiFault : Type
  | stateFault
  | typeError (msg : String)
deriving DecidableEq, Repr

/-- Embedding of `QmxGraphApi.call_api(fn, *args)` with the debug flag disabled:
builds `prepare_js_call(fn, *args)` and evaluates `"api." + call`
through `eval_js` (whose `check_api` defaults to `True`).  `.ok script`
means `script` reached the engine; `.error` means the call raised
before any engine call. -/
def call_api (s : ViewState) (fn : String) (args : List PyVal) : Except ApiFault String :=
  match prepare_js_call fn args with
  | .error e => .error (.typeError e)
  | .ok call =>
    match eval_js s true with
    | .stateFault => .error .stateFault
    | .engineCall => .ok ("api." ++ call)

/-- Entry check of `QmxGraph.load_and_wait`: returns `.error` when the
`RuntimeError("view is closing, cannot load")` is raised (the state is
left untouched), and otherwise the resulting state of the `load_graph`
request together with whether a page load started. -/
def load_and_wait_start (s : ViewState) : Except String (ViewState × Bool) :=
  if s = .GraphLoaded then .ok (s, false)
  else if s = .Closing then .error "view is closing, cannot load"
  else .ok (load_graph s)

/-- Entry check of `QmxGraph.blank_and_wait`, analogously. -/
def blank_and_wait_start (s : ViewState) : Except String (ViewState × Bool) :=
  if s = .Blank then .ok (s, false)
  else if s = .Closing then .error "view is closing, cannot blank"
  else .ok (blank s)

/-! ### The synchronous wait primitive (`qmxgraph/callback_blocker.py`) -/

/-- The mutable state of a `CallbackBlocker`: its `called` flag and the
captured `args` (`None` until the callback fires).  `α` stands for the
positional-argument tuple. -/
structure CBState (α : Type) where
  called : Bool
  args : Option α
deriving DecidableEq, Repr

/-- The state set up by `CallbackBlocker.__init__`:
`self.args = None`, `self.called = False`. -/
def initCB (α : Type) : CBState α :=
  ⟨false, Option.none⟩

/-- The faults `CallbackBlocker` can raise: `CallbackCalledTwiceError`
from `__call__`, `TimeoutError` from `wait`. -/
inductive CBError : Type
  | calledTwice
  | timeoutExpired
deriving DecidableEq, Repr

/-- Embedding of `CallbackBlocker.__call__(*args)`: raises
`CallbackCalledTwiceError` when `self.called` is already set - the
check precedes every assignment, so the state is returned unchanged -
and otherwise records the arguments and sets `called`. -/
def cb_call (s : CBState α) (a : α) : CBState α × Option CBError :=
  if s.called then (s, some .calledTwice)
  else (⟨true, some a⟩, none)

/-- Embedding of `CallbackBlocker.wait()`, observed at the point the event loop has
been exited: returns immediately when `called` is set, and raises
`TimeoutError` otherwise (`if not self.called: raise TimeoutError`). -/
def cb_wait (s : CBState α) : Option CBError :=
  if s.called then none else some .timeoutExpired

/-! ### The delayed-signal bridge (`qmxgraph/widget.py`) -/

/-- The mutable state of a `DelayedSignalsBridge`:
`_delaying_signals_counter` and `_delayed_signals`, the latter a
`DefaultDict[str, List[Any]]` modelled as an insertion-ordered
association list from signal name to the queued argument tuples.
`α` stands for one argument tuple. -/
structure BridgeState (α : Type) where
  delaying_signals_counter : Int
  delayed_signals : List (String × List α)
deriving DecidableEq, Repr

/-- The state set up by `DelayedSignalsBridge.__init__`. -/
def initBridge (α : Type) : BridgeState α :=
  ⟨0, []⟩

/-- Embedding of `self._delayed_signals[signal_name].append(args)` on an
insertion-ordered `defaultdict(list)`: append to the existing entry of
the name, or add a fresh entry at the end. -/
def appendDelayed (q : List (String × List α)) (name : String) (a : α) :
    List (String × List α) :=
  match q with
  | [] => [(name, [a])]
  | (n, as) :: rest =>
    if n == name then (n, as ++ [a]) :: rest
    else (n, as) :: appendDelayed rest name a

/-- Embedding of `DelayedSignalsBridge.is_delaying_signals`. -/
def is_delaying_signals (s : BridgeState α) : Bool :=
  s.delaying_signals_counter > 0

/-- The generated `async_slot` (`_make_async_pyqt_slot`): while
delaying, the notification is queued; otherwise it is dispatched (the
posted `_AsyncSignalEvent` later emits the signal).  Returns the new
state and the emissions produced by this inbound notification. -/
def async_slot (s : BridgeState α) (name : String) (a : α) :
    BridgeState α × List (String × α) :=
  if is_delaying_signals s then
    ({ s with delayed_signals := appendDelayed s.delayed_signals name a }, [])
  else (s, [(name, a)])

/-- The emissions produced by iterating
`for signal_name, all_args in to_emit: for args in all_args: emit`. -/
def flushEmissions (q : List (String × List α)) : List (String × α) :=
  q.flatMap (fun p => p.2.map (fun a => (p.1, a)))

/-- Embedding of `DelayedSignalsBridge.flush_delayed_signals`: snapshots
`_delayed_signals.items()`, clears the dict, then emits entry by entry.
Returns the new state and the emissions. -/
def flush_delayed_signals (s : BridgeState α) :
    BridgeState α × List (String × α) :=
  ({ s with delayed_signals := [] }, flushEmissions s.delayed_signals)

/-- Entering the `delaying_signals` context manager:
`self._delaying_signals_counter += 1`. -/
def enter_delaying (s : BridgeState α) : BridgeState α :=
  { s with delaying_signals_counter := s.delaying_signals_counter + 1 }

/-- Leaving the `delaying_signals` context manager: decrement the
counter and, exactly when it reached zero, flush.  The third component
records whether `flush_delayed_signals` ran. -/
def exit_delaying (s : BridgeState α) :
    BridgeState α × List (String × α) × Bool :=
  let s1 : BridgeState α :=
    { s with delaying_signals_counter := s.delaying_signals_counter - 1 }
  if s1.delaying_signals_counter = 0 then
    let r := flush_delayed_signals s1
    (r.1, r.2, true)
  else (s1, [], false)

/-- An operation performed on a bridge: entering or leaving a delaying
scope, or an inbound notification (`name`, argument tuple). -/
inductive BridgeOp (α : Type)
  | enter
  | leave
  | notify (name : String) (a : α)

/-- One bridge operation: resulting state, emissions, and how many
times `flush_delayed_signals` ran (0 or 1). -/
def stepOp (s : BridgeState α) : BridgeOp α → BridgeState α × List (String × α) × Nat
  | .enter => (enter_delaying s, [], 0)
  | .leave =>
    let r := exit_delaying s
    (r.1, r.2.1, if r.2.2 then 1 else 0)
  | .notify name a =>
    let r := async_slot s name a
    (r.1, r.2, 0)

/-- Runs a sequence of bridge operations, concatenating the emission
trace and adding up the flush count. -/
def runOps (s : BridgeState α) : List (BridgeOp α) → BridgeState α × List (String × α) × Nat
  | [] => (s, [], 0)
  | op :: rest =>
    let r := stepOp s op
    let r2 := runOps r.1 rest
    (r2.1, r.2.1 ++ r2.2.1, r.2.2 + r2.2.2)

/-- Number of queued occurrences of the notification `(name, a)` in a
delay queue. -/
def queuedCount [DecidableEq α] (q : List (String × List α)) (name : String) (a : α) : Nat :=
  (q.map (fun p => if p.1 = name then p.2.count a else 0)).sum

/-- The event names of an arrival sequence, first occurrences only, in
arrival order. -/
def firstOcc : List String → List String
  | [] => []
  | n :: rest => n :: (firstOcc rest).filter (fun m => !(m == n))

/-- Regrouping of an arrival sequence by event name: the blocks follow
the order in which each name first arrived, and inside a block the
notifications keep their arrival order. -/
def groupByName (l : List (String × α)) : List (String × α) :=
  (firstOcc (l.map Prod.fst)).flatMap (fun n => l.filter (fun p => p.1 == n))

/-- The delay queue produced by queueing an arrival sequence, in order,
into an empty `defaultdict(list)`. -/
def toQueue (l : List (String × α)) : List (String × List α) :=
  l.foldl (fun q p => appendDelayed q p.1 p.2) []

/-- Closed form of `toQueue`: one entry per event name (names in first
arrival order), carrying the argument tuples of that name in arrival
order. -/
def canonQueue (l : List (String × α)) : List (String × List α) :=
  (firstOcc (l.map Prod.fst)).map
    (fun n => (n, (l.filter (fun p => p.1 == n)).map Prod.snd))

/-! ### The drag&drop payload (`qmxgraph/mime.py`, `qmxgraph/constants.py`,
`QmxGraph._on_drop` in `qmxgraph/widget.py`)

Coordinates are modelled over `ℚ`; on the data exercised here
(`width * 0.5` on even integer widths, integer drop points, scale `1`)
the binary floating point of Python computes the same exact values.
The JSON byte round trip of `create_qt_mime_data` / `_on_drop`
(`json.dumps` then `json.loads` of the same object) is the identity on
the structured payload and is elided.
-/

/-- Embedding of `qmxgraph.constants.QGRAPH_DD_MIME_VERSION`. -/
def QGRAPH_DD_MIME_VERSION : Int := 2

/-- One entry of the `vertices` list of the drag&drop payload
(`qmxgraph/mime.py` format docs): displacement from the drop point,
size, label, optional style, tags. -/
structure DDVertex where
  dx : ℚ
  dy : ℚ
  width : ℚ
  height : ℚ
  label : String
  style : Option String := Option.none
  tags : List (String × String) := []
deriving DecidableEq, Repr

/-- One entry of the `decorations` list of the drag&drop payload. -/
structure DDDecoration where
  width : ℚ
  height : ℚ
  label : String
  style : Option String := Option.none
  tags : List (String × String) := []
deriving DecidableEq, Repr

/-- The parsed drag&drop payload `{version, vertices, decorations}`. -/
structure DDPayload where
  version : Int
  vertices : List DDVertex := []
  decorations : List DDDecoration := []
deriving DecidableEq, Repr

/-- Embedding of `qmxgraph.mime.create_qt_mime_data(data)` restricted to its payload
content: starts from the map holding only the `version` key (set to
`QGRAPH_DD_MIME_VERSION`) and updates
it with the given `data` entries (the payloads of the claim carry no
`version` key of their own, so the constant version stands). -/
def create_qt_mime_data (vertices : List DDVertex) (decorations : List DDDecoration) :
    DDPayload :=
  { version := QGRAPH_DD_MIME_VERSION, vertices := vertices, decorations := decorations }

/-- An API call issued by the drop handler: `insert_vertex` or
`insert_decoration` with the arguments it received. -/
inductive InsertCall : Type
  | vertex (x y width height : ℚ) (label : String)
      (style : Option String) (tags : List (String × String))
  | decoration (x y width height : ℚ) (label : String)
      (style : Option String) (tags : List (String × String))
deriving DecidableEq, Repr

/-- Embedding of `QmxGraph._on_drop` on a payload that parsed to `parsed`, with drop
point `(x, y)` and current zoom scale `scale`: rejects unsupported
versions with `ValueError`, then issues one `insert_vertex` per vertex
entry at `(x + (dx - width * 0.5) * scale, y + (dy - height * 0.5) * scale)`
and, for version 2, one `insert_decoration` per decoration entry at the
raw drop point. -/
def on_drop (parsed : DDPayload) (x y scale : ℚ) : Except String (List InsertCall) :=
  if parsed.version ≠ 1 ∧ parsed.version ≠ 2 then
    .error ("Unsupported version of QmxGraph MIME data: " ++ toString parsed.version)
  else
    .ok
      ((parsed.vertices.map (fun v =>
          InsertCall.vertex
            (x + (v.dx - v.width * (1 / 2)) * scale)
            (y + (v.dy - v.height * (1 / 2)) * scale)
            v.width v.height v.label v.style v.tags))
        ++ (if parsed.version = 2 then
              parsed.decorations.map (fun v =>
                InsertCall.decoration x y v.width v.height v.label v.style v.tags)
            else []))

/-! ## Theorems -/

/-- C1: with the state check enabled (`check_api = true`), `eval_js`
raises the state fault whenever the view state is not `GraphLoaded`, so
the `page().runJavaScript` branch is unreachable; in particular
`call_api("insertVertex", 10, 10, 25, 25, "label", null, null)` issued
while the state is `Blank` raises the state fault and performs no
engine call. -/
theorem eval_js_state_gate (s : ViewState) (h : s ≠ ViewState.GraphLoaded) :
    eval_js s true = EvalOutcome.stateFault ∧
    call_api ViewState.Blank "insertVertex"
        [PyVal.int 10, PyVal.int 10, PyVal.int 25, PyVal.int 25,
         PyVal.str "label", PyVal.none, PyVal.none]
      = Except.error ApiFault.stateFault := by
  constructor
  · simp [eval_js, h]
  · rfl

/-- Witness for C1 at the concrete state `Blank`. -/
theorem eval_js_state_gate_witness :
    eval_js ViewState.Blank true = EvalOutcome.stateFault ∧
    call_api ViewState.Blank "insertVertex"
        [PyVal.int 10, PyVal.int 10, PyVal.int 25, PyVal.int 25,
         PyVal.str "label", PyVal.none, PyVal.none]
      = Except.error ApiFault.stateFault :=
  eval_js_state_gate ViewState.Blank (by decide)

/-- C2: the `ViewState` step relation follows the transition table: a
load request in `Blank` moves to `LoadingGraph`; `loadFinished` with
`ok = true` in `LoadingGraph` moves to `GraphLoaded` and with
`ok = false` to `LoadingError`; a blank request moves to `LoadingBlank`
and a successful completion then moves to `Blank`; a successful
completion in `LoadingError` leaves the state unchanged, while a new
load request from `LoadingError` starts loading again. -/
theorem viewstate_transition_table :
    load_graph ViewState.Blank = (ViewState.LoadingGraph, true) ∧
    on_load_finished ViewState.LoadingGraph true = ViewState.GraphLoaded ∧
    on_load_finished ViewState.LoadingGraph false = ViewState.LoadingError ∧
    (∀ s : ViewState, blank s = (ViewState.LoadingBlank, true)) ∧
    on_load_finished ViewState.LoadingBlank true = ViewState.Blank ∧
    on_load_finished ViewState.LoadingError true = ViewState.LoadingError ∧
    load_graph ViewState.LoadingError = (ViewState.LoadingGraph, true) :=
  ⟨rfl, rfl, rfl, fun _ => rfl, rfl, rfl, rfl⟩

/-- C5 counterexample: the low-level load request `load_graph` issued
while the state is `Closing` does not raise - it starts a page load and
moves the state to `LoadingGraph`, contradicting the claim that every
load request in `Closing` raises with the state machine unchanged. -/
theorem load_in_closing_counterexample :
    (load_graph ViewState.Closing).2 = true ∧
    (load_graph ViewState.Closing).1 = ViewState.LoadingGraph ∧
    (load_graph ViewState.Closing).1 ≠ ViewState.Closing :=
  ⟨rfl, rfl, by decide⟩

/-- C5 amended: the blocking load request `QmxGraph.load_and_wait`
issued while `Closing` raises the programming-error fault synchronously
(before any mutation), while the low-level `load_graph` request carries
no such check and instead starts a load, moving to `LoadingGraph`. -/
theorem load_and_wait_closing_raises :
    load_and_wait_start ViewState.Closing
      = Except.error "view is closing, cannot load" ∧
    load_graph ViewState.Closing = (ViewState.LoadingGraph, true) :=
  ⟨rfl, rfl⟩

/-- C6 counterexample: a blank request (`QWebViewWithDragDrop.blank`)
issued while the state is already `Blank` is not a no-op: it moves the
state to `LoadingBlank` and starts a page load (`setHtml`). -/
theorem blank_request_not_idempotent :
    blank ViewState.Blank = (ViewState.LoadingBlank, true) ∧
    blank ViewState.Blank ≠ (ViewState.Blank, false) :=
  ⟨rfl, by decide⟩

/-- C6 amended: a load request issued while `GraphLoaded` or
`LoadingGraph` is a no-op (state unchanged, no page load started); a
blank request is collapsed only at the widget level, by
`blank_and_wait` when the state is already `Blank`, while the web-view
blank request itself is unconditional: from every state it moves to
`LoadingBlank` and starts a page load. -/
theorem request_collapsing_amended :
    (∀ s : ViewState, s = ViewState.GraphLoaded ∨ s = ViewState.LoadingGraph →
       load_graph s = (s, false)) ∧
    blank_and_wait_start ViewState.Blank = Except.ok (ViewState.Blank, false) ∧
    (∀ s : ViewState, blank s = (ViewState.LoadingBlank, true)) := by
  refine ⟨?_, rfl, fun _ => rfl⟩
  rintro s (rfl | rfl) <;> rfl

/-- Witness for the amended C6 at the concrete state `GraphLoaded`. -/
theorem request_collapsing_amended_witness :
    load_graph ViewState.GraphLoaded = (ViewState.GraphLoaded, false) :=
  request_collapsing_amended.1 ViewState.GraphLoaded (Or.inl rfl)

/-- C7: invoking the `CallbackBlocker` completion callback once
resolves the wait with the arguments of that invocation; invoking it a
second time raises `CallbackCalledTwiceError` with the originally
captured arguments unchanged; and a wait on a blocker whose callback
never fired raises the timeout fault while the captured args remain
`None`. -/
theorem callback_blocker_protocol (α : Type) (a b : α) :
    (cb_call (initCB α) a).2 = Option.none ∧
    (cb_call (initCB α) a).1.called = true ∧
    (cb_call (initCB α) a).1.args = some a ∧
    cb_wait (cb_call (initCB α) a).1 = Option.none ∧
    (cb_call (cb_call (initCB α) a).1 b).2 = some CBError.calledTwice ∧
    (cb_call (cb_call (initCB α) a).1 b).1.args = some a ∧
    cb_wait (initCB α) = some CBError.timeoutExpired ∧
    (initCB α).args = Option.none :=
  ⟨rfl, rfl, rfl, rfl, rfl, rfl, rfl, rfl⟩

/-- C8: encoding a version-2 payload with the single vertex
`{dx: 0, dy: 0, width: 64, height: 64, label: "test 1"}` and decoding
it at drop point `(100, 100)` with zoom scale `1` yields exactly one
`insert_vertex` call at `(68, 68)` with width and height `64` and label
`"test 1"`. -/
theorem dd_payload_round_trip :
    on_drop
        (create_qt_mime_data
          [{ dx := 0, dy := 0, width := 64, height := 64, label := "test 1" }] [])
        100 100 1
      = Except.ok [InsertCall.vertex 68 68 64 64 "test 1" Option.none []] := by
  simp only [on_drop, create_qt_mime_data, QGRAPH_DD_MIME_VERSION]
  norm_num

/-- Counting a pair `(n, a)` in the emissions of one queue entry. -/
theorem count_mapPair [DecidableEq α] (m n : String) (a : α) (as : List α) :
    ((as.map (fun x => (m, x))).count (n, a)) = if m = n then as.count a else 0 := by
  induction as with
  | nil => simp
  | cons x xs ih =>
    by_cases h : m = n
    · subst h
      by_cases hx : a = x
      · subst hx
        simp [List.count_cons, ih, Prod.ext_iff]
      · simp [List.count_cons, ih, Prod.ext_iff, hx]
    · simp [List.count_cons, ih, Prod.ext_iff, h,
        show ¬n = m from fun hh => h hh.symm]

/-- Each queued notification appears in the flushed emissions exactly
as often as it was queued. -/
theorem count_flushEmissions [DecidableEq α] (q : List (String × List α))
    (n : String) (a : α) :
    (flushEmissions q).count (n, a) = queuedCount q n a := by
  induction q with
  | nil => rfl
  | cons p rest ih =>
    simp only [flushEmissions, queuedCount, List.flatMap_cons, List.map_cons,
      List.sum_cons, List.count_append] at *
    rw [ih, count_mapPair]

/-- C3: when the delaying counter returns to zero, the scope exit
flushes: every queued notification is emitted exactly once (the
emission multiset equals the queued multiset) and the delay queue is
empty afterwards; an exit that leaves the counter positive triggers no
flush and emits nothing; and from a fresh bridge, `enter;enter;exit`
runs no flush while `enter;enter;exit;exit` runs exactly one. -/
theorem delayed_signals_flush (α : Type) [DecidableEq α] (s : BridgeState α) :
    (s.delaying_signals_counter = 1 →
      (exit_delaying s).2.2 = true ∧
      (exit_delaying s).1.delayed_signals = [] ∧
      ∀ (n : String) (a : α),
        (exit_delaying s).2.1.count (n, a) = queuedCount s.delayed_signals n a) ∧
    (1 < s.delaying_signals_counter →
      (exit_delaying s).2.2 = false ∧
      (exit_delaying s).2.1 = [] ∧
      (exit_delaying s).1.delayed_signals = s.delayed_signals) ∧
    (runOps (initBridge α) [BridgeOp.enter, BridgeOp.enter, BridgeOp.leave]).2.2 = 0 ∧
    (runOps (initBridge α)
      [BridgeOp.enter, BridgeOp.enter, BridgeOp.leave, BridgeOp.leave]).2.2 = 1 := by
  refine ⟨fun h => ?_, fun h => ?_, rfl, rfl⟩
  · have h0 : s.delaying_signals_counter - 1 = 0 := by omega
    simp [exit_delaying, flush_delayed_signals, h0, count_flushEmissions]
  · have h0 : ¬(s.delaying_signals_counter - 1 = 0) := by omega
    simp [exit_delaying, h0]

/-- Witness for C3 at a concrete bridge state with counter `1` and one
queued notification. -/
theorem delayed_signals_flush_witness :
    (exit_delaying (⟨1, [("on_cells_added", [7])]⟩ : BridgeState Nat)).2.2 = true ∧
    (exit_delaying (⟨1, [("on_cells_added", [7])]⟩ : BridgeState Nat)).1.delayed_signals
      = [] ∧
    (exit_delaying (⟨1, [("on_cells_added", [7])]⟩ : BridgeState Nat)).2.1.count
        ("on_cells_added", 7)
      = queuedCount [("on_cells_added", [7])] "on_cells_added" 7 := by
  have h := (delayed_signals_flush Nat (⟨1, [("on_cells_added", [7])]⟩ : BridgeState Nat)).1 rfl
  exact ⟨h.1, h.2.1, h.2.2 "on_cells_added" 7⟩

/-- Membership in `firstOcc` coincides with membership in the list. -/
theorem mem_firstOcc (n : String) (ns : List String) :
    n ∈ firstOcc ns ↔ n ∈ ns := by
  induction ns with
  | nil => simp [firstOcc]
  | cons m rest ih =>
    by_cases h : n = m
    · simp [firstOcc, h]
    · simp [firstOcc, List.mem_filter, ih, h]

/-- The result of `firstOcc` lists each name at most once. -/
theorem nodup_firstOcc (ns : List String) : (firstOcc ns).Nodup := by
  induction ns with
  | nil => simp [firstOcc]
  | cons m rest ih =>
    refine List.Nodup.cons ?_ (ih.filter _)
    intro hmem
    rcases List.mem_filter.mp hmem with ⟨-, hne⟩
    simp at hne

/-- Unfolding `firstOcc` over a name sequence extended by one name. -/
theorem firstOcc_append (ns : List String) (n : String) :
    firstOcc (ns ++ [n])
      = if n ∈ ns then firstOcc ns else firstOcc ns ++ [n] := by
  induction ns with
  | nil => simp [firstOcc]
  | cons m rest ih =>
    have hstep : firstOcc ((m :: rest) ++ [n])
        = m :: (firstOcc (rest ++ [n])).filter (fun k => !(k == m)) := rfl
    have hstep2 : firstOcc (m :: rest)
        = m :: (firstOcc rest).filter (fun k => !(k == m)) := rfl
    rw [hstep, hstep2, ih]
    by_cases hmem : n ∈ rest
    · rw [if_pos hmem, if_pos (List.mem_cons_of_mem m hmem)]
    · rw [if_neg hmem]
      by_cases hnm : n = m
      · subst hnm
        rw [if_pos (List.mem_cons_self n rest), List.filter_append]
        simp
      · have hno : n ∉ m :: rest := by
          intro hcontra
          rcases List.mem_cons.mp hcontra with h1 | h2
          · exact hnm h1
          · exact hmem h2
        rw [if_neg hno, List.filter_append]
        simp [hnm]

/-- Unfolding `appendDelayed` on a queue in canonical form (one entry per name,
names without duplicates). -/
theorem appendDelayed_map (ns : List String) (g : String → List α)
    (n : String) (a : α) (hnd : ns.Nodup) :
    appendDelayed (ns.map fun m => (m, g m)) n a
      = (if n ∈ ns then ns.map fun m => (m, if m == n then g m ++ [a] else g m)
         else (ns.map fun m => (m, g m)) ++ [(n, [a])]) := by
  induction ns with
  | nil => simp [appendDelayed]
  | cons m rest ih =>
    rcases List.nodup_cons.mp hnd with ⟨hm, hrest⟩
    simp only [List.map_cons, appendDelayed]
    by_cases hmn : m = n
    · subst hmn
      have hcong : ∀ k ∈ rest,
          ((k, g k) : String × List α)
            = (k, if k == m then g k ++ [a] else g k) := by
        intro k hk
        have hkm : ¬k = m := fun h => hm (h ▸ hk)
        simp [hkm]
      rw [if_pos (by simp : (m == m) = true), if_pos (List.mem_cons_self m rest)]
      refine congrArg₂ List.cons ?_ (List.map_congr_left hcong)
      simp
    · rw [if_neg (by simp [hmn] : ¬(m == n) = true), ih hrest]
      by_cases hmemr : n ∈ rest
      · rw [if_pos hmemr, if_pos (List.mem_cons_of_mem m hmemr)]
        refine congrArg₂ List.cons ?_ rfl
        simp [hmn]
      · have hno : n ∉ m :: rest := by
          intro hcontra
          rcases List.mem_cons.mp hcontra with h1 | h2
          · exact hmn h1.symm
          · exact hmemr h2
        rw [if_neg hmemr, if_neg hno]
        rfl

/-- Unfolding `toQueue` over an arrival sequence extended by one arrival. -/
theorem toQueue_append (l : List (String × α)) (n : String) (a : α) :
    toQueue (l ++ [(n, a)]) = appendDelayed (toQueue l) n a := by
  simp [toQueue, List.foldl_append]

/-- The queue built from an arrival sequence is its canonical
grouping: one entry per name in first-arrival order, each carrying its
argument tuples in arrival order. -/
theorem toQueue_eq_canon (l : List (String × α)) : toQueue l = canonQueue l := by
  induction l using List.reverseRecOn with
  | nil => rfl
  | append_singleton l p ih =>
    rcases p with ⟨n, a⟩
    rw [toQueue_append, ih]
    unfold canonQueue
    simp only [List.map_append, List.map_cons, List.map_nil]
    rw [appendDelayed_map _ _ _ _ (nodup_firstOcc _), firstOcc_append]
    by_cases hmem : n ∈ l.map Prod.fst
    · rw [if_pos ((mem_firstOcc _ _).mpr hmem), if_pos hmem]
      apply List.map_congr_left
      intro m _hm
      by_cases hmn : m = n
      · subst hmn
        simp [List.filter_append]
      · have hnm : ¬n = m := fun h => hmn h.symm
        simp [List.filter_append, hmn, hnm]
    · rw [if_neg (fun h => hmem ((mem_firstOcc _ _).mp h)), if_neg hmem,
        List.map_append]
      congr 1
      · apply List.map_congr_left
        intro m hm
        have hmn : ¬n = m := fun h => hmem (h ▸ (mem_firstOcc _ _).mp hm)
        simp [List.filter_append, hmn]
      · have hnil : l.filter (fun p => p.1 == n) = [] := by
          refine List.filter_eq_nil_iff.mpr ?_
          intro p hp
          simp only [beq_iff_eq]
          intro h
          exact hmem (h ▸ List.mem_map_of_mem Prod.fst hp)
        simp [List.filter_append, hnil]

/-- Re-pairing the argument tuples of one queue entry with its name
gives back the block of that name in the arrival sequence. -/
theorem map_pair_filter (l : List (String × α)) (n : String) :
    ((l.filter (fun p => p.1 == n)).map Prod.snd).map (fun a => (n, a))
      = l.filter (fun p => p.1 == n) := by
  induction l with
  | nil => rfl
  | cons p rest ih =>
    by_cases h : p.1 == n
    · have hp : (n, p.2) = p := by
        rcases p with ⟨m, b⟩
        simp only [beq_iff_eq] at h
        rw [h]
      simp [List.filter_cons, h, ih, hp]
    · simp [List.filter_cons, h, ih]

/-- Unfolding `flushEmissions` of a queue in canonical map form. -/
theorem flushEmissions_canon (ns : List String) (g : String → List α) :
    flushEmissions (ns.map fun n => (n, g n))
      = ns.flatMap (fun n => (g n).map (fun a => (n, a))) := by
  induction ns with
  | nil => rfl
  | cons m rest ih =>
    simp only [flushEmissions, List.map_cons, List.flatMap_cons] at ih ⊢
    rw [ih]

/-- Flushing the queue built from an arrival sequence emits exactly
that sequence regrouped by event name. -/
theorem flush_toQueue (l : List (String × α)) :
    flushEmissions (toQueue l) = groupByName l := by
  rw [toQueue_eq_canon]
  unfold canonQueue groupByName
  simp only [flushEmissions_canon, map_pair_filter]

/-- Splitting `runOps` over concatenated operation sequences. -/
theorem runOps_append (l1 l2 : List (BridgeOp α)) (s : BridgeState α) :
    runOps s (l1 ++ l2)
      = ((runOps (runOps s l1).1 l2).1,
         (runOps s l1).2.1 ++ (runOps (runOps s l1).1 l2).2.1,
         (runOps s l1).2.2 + (runOps (runOps s l1).1 l2).2.2) := by
  induction l1 generalizing s with
  | nil => simp [runOps]
  | cons op rest ih => simp [runOps, ih, Nat.add_assoc]

/-- Notifications arriving while the delaying counter is at `1` are
queued in arrival order and emit nothing. -/
theorem runOps_notify_delaying (l : List (String × α)) (q : List (String × List α)) :
    runOps (⟨1, q⟩ : BridgeState α) (l.map fun p => BridgeOp.notify p.1 p.2)
      = (⟨1, l.foldl (fun q p => appendDelayed q p.1 p.2) q⟩, [], 0) := by
  induction l generalizing q with
  | nil => rfl
  | cons p rest ih =>
    simp [runOps, stepOp, async_slot, is_delaying_signals, ih]

/-- C4 counterexample: notifications of two event names interleaved
while delaying (`a`, then `b`, then `a` again) are flushed at scope
exit grouped by name - `[a1, a3, b2]` - and not in the global arrival
order `[a1, b2, a3]` the claim asserts. -/
theorem flush_order_counterexample :
    (runOps (initBridge Nat)
        [BridgeOp.enter, BridgeOp.notify "a" 1, BridgeOp.notify "b" 2,
         BridgeOp.notify "a" 3, BridgeOp.leave]).2.1
      = [("a", 1), ("a", 3), ("b", 2)] ∧
    (runOps (initBridge Nat)
        [BridgeOp.enter, BridgeOp.notify "a" 1, BridgeOp.notify "b" 2,
         BridgeOp.notify "a" 3, BridgeOp.leave]).2.1
      ≠ [("a", 1), ("b", 2), ("a", 3)] :=
  ⟨rfl, by decide⟩

/-- C4 amended: when the outermost delaying scope of a bridge exits,
the queued notifications are dispatched grouped by event name - the
names in the order each first arrived, and within one name in arrival
order - not in global arrival order across names. -/
theorem flush_grouped_by_name (α : Type) (l : List (String × α)) :
    (runOps (initBridge α)
        (BridgeOp.enter ::
          (l.map (fun p => BridgeOp.notify p.1 p.2) ++ [BridgeOp.leave]))).2.1
      = groupByName l := by
  have henter : runOps (initBridge α)
      (BridgeOp.enter ::
        (l.map (fun p => BridgeOp.notify p.1 p.2) ++ [BridgeOp.leave]))
      = let r2 := runOps (⟨1, []⟩ : BridgeState α)
          (l.map (fun p => BridgeOp.notify p.1 p.2) ++ [BridgeOp.leave])
        (r2.1, [] ++ r2.2.1, 0 + r2.2.2) := rfl
  rw [henter]
  rw [runOps_append, runOps_notify_delaying]
  have hleave : runOps (⟨1, l.foldl (fun q p => appendDelayed q p.1 p.2) []⟩ :
        BridgeState α) [BridgeOp.leave]
      = (⟨0, []⟩,
         flushEmissions (l.foldl (fun q p => appendDelayed q p.1 p.2) []), 1) := by
    simp [runOps, stepOp, exit_delaying, flush_delayed_signals]
  rw [hleave]
  simpa using flush_toQueue l

/-- C9: `prepare_js_call` renders raw-reference (`Variable`) arguments
verbatim and unquoted, and ordinary string arguments as quoted JSON
literals: `prepare_js_call("foo", Variable("bar"))` is exactly
`foo(bar)` and `prepare_js_call("foo", "bar")` is exactly
`foo("bar")`. -/
theorem prepare_js_call_variable_verbatim :
    prepare_js_call "foo" [PyVal.var "bar"] = Except.ok "foo(bar)" ∧
    prepare_js_call "foo" [PyVal.str "bar"] = Except.ok "foo(\"bar\")" :=
  ⟨rfl, rfl⟩

/-- If an array encodes without raising, every element encodes without
raising. -/
theorem jsonEncodeList_ok_of_mem (xs : List PyVal) (x : PyVal) (hx : x ∈ xs)
    (h : exceptOk (jsonEncodeList xs) = true) : exceptOk (jsonEncode x) = true := by
  induction xs with
  | nil => cases hx
  | cons y ys ih =>
    cases hy : jsonEncode y with
    | error e =>
      rw [jsonEncodeList, hy] at h
      exact Bool.noConfusion h
    | ok s =>
      rcases List.mem_cons.mp hx with rfl | hmem
      · rw [hy]; rfl
      · apply ih hmem
        cases hys : jsonEncodeList ys with
        | error e =>
          rw [jsonEncodeList, hy, hys] at h
          exact Bool.noConfusion h
        | ok parts => rfl

/-- If an object encodes without raising, every value encodes without
raising. -/
theorem jsonEncodeKVs_ok_of_mem (kvs : List (String × PyVal)) (k : String) (v : PyVal)
    (hkv : (k, v) ∈ kvs) (h : exceptOk (jsonEncodeKVs kvs) = true) :
    exceptOk (jsonEncode v) = true := by
  induction kvs with
  | nil => cases hkv
  | cons p rest ih =>
    rcases p with ⟨k1, v1⟩
    cases hv1 : jsonEncode v1 with
    | error e =>
      rw [jsonEncodeKVs, hv1] at h
      exact Bool.noConfusion h
    | ok s =>
      rcases List.mem_cons.mp hkv with heq | hmem
      · cases heq
        rw [hv1]; rfl
      · apply ih hmem
        cases hrest : jsonEncodeKVs rest with
        | error e =>
          rw [jsonEncodeKVs, hv1, hrest] at h
          exact Bool.noConfusion h
        | ok parts => rfl

/-- Encoding a list argument that contains a `Variable` raises. -/
theorem jsonEncode_list_err (l : List PyVal) (n : String)
    (hmem : PyVal.var n ∈ l) :
    exceptOk (jsonEncode (PyVal.list l)) = false := by
  cases h : jsonEncodeList l with
  | error e => rw [jsonEncode, h]; rfl
  | ok parts =>
    exfalso
    have hok := jsonEncodeList_ok_of_mem l _ hmem (by simp [h, exceptOk])
    rw [jsonEncode] at hok
    simp [exceptOk] at hok

/-- Encoding a dict argument with a `Variable` value raises. -/
theorem jsonEncode_dict_err (kvs : List (String × PyVal)) (k n : String)
    (hmem : (k, PyVal.var n) ∈ kvs) :
    exceptOk (jsonEncode (PyVal.dict kvs)) = false := by
  cases h : jsonEncodeKVs kvs with
  | error e => rw [jsonEncode, h]; rfl
  | ok parts =>
    exfalso
    have hok := jsonEncodeKVs_ok_of_mem kvs k _ hmem (by simp [h, exceptOk])
    rw [jsonEncode] at hok
    simp [exceptOk] at hok

/-- If the argument dump sequence completes without raising, each
argument dumps without raising. -/
theorem js_dump_args_ok_of_mem (args : List PyVal) (x : PyVal) (hx : x ∈ args)
    (h : exceptOk (js_dump_args args) = true) : exceptOk (js_dump x) = true := by
  induction args with
  | nil => cases hx
  | cons y ys ih =>
    cases hy : js_dump y with
    | error e =>
      rw [js_dump_args, hy] at h
      exact Bool.noConfusion h
    | ok s =>
      rcases List.mem_cons.mp hx with rfl | hmem
      · rw [hy]; rfl
      · apply ih hmem
        cases hys : js_dump_args ys with
        | error e =>
          rw [js_dump_args, hy, hys] at h
          exact Bool.noConfusion h
        | ok parts => rfl

/-- The call `prepare_js_call` raises precisely when dumping its arguments
raises. -/
theorem prepare_ok_iff (fn : String) (args : List PyVal) :
    exceptOk (prepare_js_call fn args) = exceptOk (js_dump_args args) := by
  unfold prepare_js_call
  cases h : js_dump_args args <;> rfl

/-- C10: verbatim emission applies only to top-level `Variable`
arguments: whenever a `Variable` occurs nested inside a container
argument - as a list element or as a dictionary value - the encoding
raises the unserializable-object `TypeError` and the call string is
never produced. -/
theorem nested_variable_rejected (fn : String) (args : List PyVal) :
    (∀ (l : List PyVal) (n : String), PyVal.list l ∈ args → PyVal.var n ∈ l →
      exceptOk (prepare_js_call fn args) = false) ∧
    (∀ (kvs : List (String × PyVal)) (k n : String), PyVal.dict kvs ∈ args →
      (k, PyVal.var n) ∈ kvs →
      exceptOk (prepare_js_call fn args) = false) := by
  constructor
  · intro l n hmem hvar
    rw [prepare_ok_iff]
    cases hargs : exceptOk (js_dump_args args)
    · rfl
    · exfalso
      have hd := js_dump_args_ok_of_mem args _ hmem hargs
      have hsame : js_dump (PyVal.list l) = jsonEncode (PyVal.list l) := rfl
      rw [hsame, jsonEncode_list_err l n hvar] at hd
      simp at hd
  · intro kvs k n hmem hvar
    rw [prepare_ok_iff]
    cases hargs : exceptOk (js_dump_args args)
    · rfl
    · exfalso
      have hd := js_dump_args_ok_of_mem args _ hmem hargs
      have hsame : js_dump (PyVal.dict kvs) = jsonEncode (PyVal.dict kvs) := rfl
      rw [hsame, jsonEncode_dict_err kvs k n hvar] at hd
      simp at hd

/-- Witness for C10: a `Variable` nested as a list element makes the
call raise. -/
theorem nested_variable_rejected_witness :
    exceptOk (prepare_js_call "foo" [PyVal.list [PyVal.var "bar"]]) = false :=
  (nested_variable_rejected "foo" [PyVal.list [PyVal.var "bar"]]).1
    [PyVal.var "bar"] "bar" (List.Mem.head _) (List.Mem.head _)

end Qmx
